import Mathlib

/-!
# A metered ChatGPT reverse proxy: balance ledger, access gate and forwarder

Shallow embedding of `api.go` and `redis.go`.

* The Redis server is a finite map from keys to string values (`RedisCli`); a `GET` of an
  absent key fails with `redis.Nil`, a `SET` always succeeds.
* Go's `float64` is modelled exactly (`F64`): every finite double is an integer multiple
  of `2^-1074`, so a finite value is a sign and a natural number of such units; the
  arithmetic rounds to nearest, ties to even, and overflows to an infinity.
* `strconv.ParseFloat`, `strconv.Atoi` and the `%f` verb of `fmt.Sprintf` are modelled on
  lists of characters, following the accepted syntax and the rounding rules of the Go
  standard library.
* An `http.ResponseWriter` is a recorder: a status, and the list of the parts written to
  the body. A JSON document written through `json.Encoder` is kept as a structured value.
-/

set_option autoImplicit false
set_option exponentiation.threshold 5000

namespace ChatProxy

/-! ## float64 -/

/-- A `float64`: NaN, a signed infinity, or a signed finite value of magnitude
`n * 2^-1074`. -/
inductive F64 where
  | nan
  | inf (neg : Bool)
  | fin (neg : Bool) (n : Nat)
  deriving DecidableEq, Repr

/-- The number of units (`2^-1074`) in 1.0. -/
def unitsPerOne : Nat := 2 ^ 1074

/-- The largest finite `float64`, `(2^53 - 1) * 2^971`, in units. -/
def maxFin : Nat := (2 ^ 53 - 1) * 2 ^ 2045

/-- Round `num / den` to the nearest natural number, ties to even. -/
def rhe (num den : Nat) : Nat :=
  let q := num / den
  let r := num % den
  if 2 * r < den then q
  else if den < 2 * r then q + 1
  else if q % 2 = 0 then q else q + 1

/-- The least `k` with `x / 2^k < 2^53` (`fuel` bounds the search). -/
def shiftFor : Nat → Nat → Nat
  | 0, _ => 0
  | fuel + 1, x => if x < 2 ^ 53 then 0 else shiftFor fuel (x / 2) + 1

/-- Round the non-negative rational `num / den` (in units) to 53 significant bits,
ties to even, with an unbounded exponent. -/
def roundUnits (num den : Nat) : Nat :=
  let k := shiftFor (num / den) (num / den)
  rhe num (den * 2 ^ k) * 2 ^ k

namespace F64

/-- The `float64` nearest to `± num / den` units; overflow gives an infinity. -/
def round (neg : Bool) (num den : Nat) : F64 :=
  let r := roundUnits num den
  if maxFin < r then inf neg else fin neg r

/-- The constant `1.0`. -/
def one : F64 := fin false unitsPerOne

/-- Unary minus. -/
def neg : F64 → F64
  | nan => nan
  | inf s => inf (!s)
  | fin s n => fin (!s) n

/-- IEEE 754 addition, rounding to nearest even. -/
def add : F64 → F64 → F64
  | nan, _ => nan
  | _, nan => nan
  | inf s, inf t => if s = t then inf s else nan
  | inf s, fin _ _ => inf s
  | fin _ _, inf t => inf t
  | fin s a, fin t b =>
    if s = t then round s (a + b) 1
    else if a = b then fin false 0
    else if b < a then round s (a - b) 1
    else round t (b - a) 1

/-- IEEE 754 subtraction. -/
def sub (x y : F64) : F64 := add x (neg y)

/-- Neither NaN nor an infinity. -/
def isFinite : F64 → Bool
  | fin _ _ => true
  | _ => false

/-- The comparison `0 <= x` of Go: false for NaN, true for both zeros. -/
def nonneg : F64 → Bool
  | nan => false
  | inf s => !s
  | fin s n => !s || n == 0

end F64

/-! ## Errors -/

/-- The `error` values that the handlers can return. -/
inductive Err where
  /-- `redis.Nil`: the key does not exist. -/
  | redisNil
  /-- `errors.New("service-key header not found")`. -/
  | headerNotFound
  /-- A `*strconv.NumError` wrapping `strconv.ErrSyntax`. -/
  | numSyntax (func num : String)
  /-- A `*strconv.NumError` wrapping `strconv.ErrRange`. -/
  | numRange (func num : String)
  /-- An error built by `fmt.Errorf`, with its message. -/
  | errorf (msg : String)
  /-- A `*json.UnsupportedTypeError`. -/
  | jsonUnsupportedType
  /-- A `*json.UnsupportedValueError`. -/
  | jsonUnsupportedValue
  /-- `http.ErrBodyNotAllowed`. -/
  | bodyNotAllowed
  /-- A failed write on the connection of the caller. -/
  | connWrite
  deriving DecidableEq, Repr

/-- Equality of results is decidable. -/
instance instDecidableEqExcept {ε α : Type} [DecidableEq ε] [DecidableEq α] :
    DecidableEq (Except ε α)
  | .ok a, .ok b => if h : a = b then isTrue (by rw [h]) else isFalse (fun h1 => h (by cases h1; rfl))
  | .error a, .error b =>
    if h : a = b then isTrue (by rw [h]) else isFalse (fun h1 => h (by cases h1; rfl))
  | .ok _, .error _ => isFalse (fun h => by cases h)
  | .error _, .ok _ => isFalse (fun h => by cases h)

/-! ## strconv and fmt -/

/-- A decimal digit. -/
def isDec (c : Char) : Bool := decide ('0' ≤ c) && decide (c ≤ '9')

/-- The value of a decimal digit. -/
def decVal (c : Char) : Nat := c.toNat - 48

/-- One of the letters `a-f`, `A-F`. -/
def isHexLetter (c : Char) : Bool :=
  (decide ('a' ≤ c) && decide (c ≤ 'f')) || (decide ('A' ≤ c) && decide (c ≤ 'F'))

/-- The value of a hexadecimal letter. -/
def hexLetterVal (c : Char) : Nat :=
  if 'a' ≤ c then c.toNat - 97 + 10 else c.toNat - 65 + 10

/-- The character of a digit `d < 10`. -/
def digitChar (d : Nat) : Char := Char.ofNat (48 + d)

/-- The decimal digits of `n`, most significant first, in front of `acc`. -/
def decDigitsAux : Nat → Nat → List Char → List Char
  | 0, _, acc => acc
  | fuel + 1, n, acc =>
    if n < 10 then digitChar n :: acc
    else decDigitsAux fuel (n / 10) (digitChar (n % 10) :: acc)

/-- The decimal digits of `n` (`"0"` for zero). -/
def decDigits (n : Nat) : List Char := decDigitsAux (n + 1) n []

/-- The six digits after the point, for `t < 10^6`. -/
def sixDigits (t : Nat) : List Char :=
  [digitChar (t / 100000 % 10), digitChar (t / 10000 % 10), digitChar (t / 1000 % 10),
   digitChar (t / 100 % 10), digitChar (t / 10 % 10), digitChar (t % 10)]

/-- The value `fmt.Sprintf("%f", x)`: six digits after the point, the exact value of `x`
rounded half to even; `+Inf`, `-Inf` and `NaN` for the special values. -/
def sprintfF : F64 → String
  | F64.nan => "NaN"
  | F64.inf false => "+Inf"
  | F64.inf true => "-Inf"
  | F64.fin s n =>
    let t := rhe (n * 10 ^ 6) unitsPerOne
    String.mk ((if s then ['-'] else []) ++ decDigits (t / 10 ^ 6) ++ '.' :: sixDigits (t % 10 ^ 6))

/-- ASCII lower case of the letters `A-Z`. -/
def lowerAZ (c : Char) : Char :=
  if decide ('A' ≤ c) && decide (c ≤ 'Z') then Char.ofNat (c.toNat + 32) else c

/-- The function `commonPrefixLenIgnoreCase` of strconv: the length of the longest common
start of `s` and of the lower-case word `w`, ignoring the case of `s`. -/
def commonLenIgnoreCase : List Char → List Char → Nat
  | c :: s, p :: w => if lowerAZ c = p then commonLenIgnoreCase s w + 1 else 0
  | _, _ => 0

/-- The word `infinity`. -/
def infinityWord : List Char := ['i', 'n', 'f', 'i', 'n', 'i', 't', 'y']

/-- The infinity case of `special`: the number of characters of `inf` or `infinity`
read at the start of `s`, if any. -/
def specialInf (s : List Char) : Option Nat :=
  let n := commonLenIgnoreCase s infinityWord
  let n := if 3 < n ∧ n < 8 then 3 else n
  if n = 3 ∨ n = 8 then some n else none

/-- The function `special` of strconv: a possibly signed `inf`/`infinity`, or `nan`, at the
start of `s`, with the number of characters read. -/
def special : List Char → Option (F64 × Nat)
  | [] => none
  | c :: s =>
    if c = '+' then (specialInf s).map (fun n => (F64.inf false, 1 + n))
    else if c = '-' then (specialInf s).map (fun n => (F64.inf true, 1 + n))
    else if c = 'i' ∨ c = 'I' then (specialInf (c :: s)).map (fun n => (F64.inf false, n))
    else if c = 'n' ∨ c = 'N' then
      if commonLenIgnoreCase (c :: s) ['n', 'a', 'n'] = 3 then some (F64.nan, 3) else none
    else none

/-- The state of the mantissa loop of `readFloat`. -/
structure Mant where
  sawdot : Bool
  sawdigits : Bool
  underscores : Bool
  /-- The digits read so far, as a number in base 10 or 16. -/
  mant : Nat
  /-- The number of digits read after the point. -/
  frac : Nat
  deriving DecidableEq, Repr

/-- One more digit of value `d` in base `b`. -/
def Mant.push (m : Mant) (b d : Nat) : Mant :=
  { m with sawdigits := true, mant := m.mant * b + d,
           frac := if m.sawdot then m.frac + 1 else m.frac }

/-- The mantissa loop of `readFloat`: digits, underscores and at most one point; returns
the state and the unread characters. -/
def readMantissa (hex : Bool) : Mant → List Char → Mant × List Char
  | m, [] => (m, [])
  | m, c :: s =>
    if c = '_' then readMantissa hex { m with underscores := true } s
    else if c = '.' then
      if m.sawdot then (m, c :: s) else readMantissa hex { m with sawdot := true } s
    else if isDec c then readMantissa hex (m.push (if hex then 16 else 10) (decVal c)) s
    else if hex && isHexLetter c then readMantissa hex (m.push 16 (hexLetterVal c)) s
    else (m, c :: s)

/-- The digit loop of the exponent in `readFloat`: the exponent stops growing once it
has reached 10000. Returns the exponent, the underscore flag and the unread characters. -/
def readExpDigits : Nat → Bool → List Char → Nat × Bool × List Char
  | e, u, [] => (e, u, [])
  | e, u, c :: s =>
    if c = '_' then readExpDigits e true s
    else if isDec c then readExpDigits (if e < 10000 then e * 10 + decVal c else e) u s
    else (e, u, c :: s)

/-- What `readFloat` returns: the digits as a number, and the exponent of 10 (of 2 for a
hexadecimal mantissa) that scales it. -/
structure ReadFloat where
  neg : Bool
  hex : Bool
  mant : Nat
  exp : Int
  underscores : Bool
  rest : List Char
  deriving DecidableEq, Repr

/-- The exponent part of `readFloat`, after the mantissa `m`. -/
def readExponent (neg hex : Bool) (m : Mant) (s : List Char) : Option ReadFloat :=
  let scale : Int := if hex then 4 * (m.frac : Int) else (m.frac : Int)
  let noExp : Option ReadFloat :=
    if hex then none else some ⟨neg, hex, m.mant, -scale, m.underscores, s⟩
  match s with
  | [] => noExp
  | c :: s1 =>
    if (if hex then c == 'p' || c == 'P' else c == 'e' || c == 'E') then
      match s1 with
      | [] => none
      | c1 :: s2 =>
        let esign : Int := if c1 = '-' then -1 else 1
        let s3 := if c1 = '+' ∨ c1 = '-' then s2 else c1 :: s2
        match s3 with
        | [] => none
        | d :: _ =>
          if isDec d then
            match readExpDigits 0 m.underscores s3 with
            | (e, u, r) => some ⟨neg, hex, m.mant, esign * (e : Int) - scale, u, r⟩
          else none
    else noExp

/-- The optional sign at the start of a number: whether it is `-`, and what follows. -/
def readSign : List Char → Bool × List Char
  | [] => (false, [])
  | c :: s => if c = '+' then (false, s) else if c = '-' then (true, s) else (false, c :: s)

/-- The base mark of `readFloat`: `0x` or `0X` with at least one character after it. -/
def hasHexMark : List Char → Bool
  | c :: x :: _ :: _ => c == '0' && (x == 'x' || x == 'X')
  | _ => false

/-- The function `readFloat` of strconv, without the check of the underscores. -/
def readFloat (s : List Char) : Option ReadFloat :=
  match readSign s with
  | (neg, s1) =>
    let hex := hasHexMark s1
    let s2 := if hex then s1.drop 2 else s1
    match readMantissa hex ⟨false, false, false, 0, 0⟩ s2 with
    | (m, s3) => if m.sawdigits then readExponent neg hex m s3 else none

/-- The loop of `underscoreOK`; `saw` is the kind of the last character: `'0'` a digit or
base mark, `'_'` an underscore, `'!'` another character, `'^'` the start. -/
def underscoreLoop (hex : Bool) : Char → List Char → Bool
  | saw, [] => saw != '_'
  | saw, c :: s =>
    if isDec c || (hex && isHexLetter c) then underscoreLoop hex '0' s
    else if c = '_' then
      if saw != '0' then false else underscoreLoop hex '_' s
    else if saw = '_' then false
    else underscoreLoop hex '!' s

/-- The base mark of `underscoreOK`: `0b`, `0o` or `0x`, in either case. -/
def hasBaseMark : List Char → Bool
  | c :: x :: _ =>
    c == '0' && (x == 'b' || x == 'B' || x == 'o' || x == 'O' || x == 'x' || x == 'X')
  | _ => false

/-- Whether the second character is `x` or `X`. -/
def secondIsX : List Char → Bool
  | _ :: x :: _ => x == 'x' || x == 'X'
  | _ => false

/-- The function `underscoreOK` of strconv: underscores only between digits, or between a
base mark and a digit. -/
def underscoreOK (s : List Char) : Bool :=
  let s1 := (readSign s).2
  if hasBaseMark s1 then underscoreLoop (secondIsX s1) '0' (s1.drop 2)
  else underscoreLoop false '^' s1

/-- The `float64` of the number read: `mant * 10^exp`, or `mant * 2^exp` for a
hexadecimal mantissa, correctly rounded. -/
def ReadFloat.value (p : ReadFloat) : F64 :=
  if p.hex then
    let e := p.exp + 1074
    if 0 ≤ e then F64.round p.neg (p.mant * 2 ^ e.toNat) 1
    else F64.round p.neg p.mant (2 ^ (-e).toNat)
  else if 0 ≤ p.exp then F64.round p.neg (p.mant * 10 ^ p.exp.toNat * unitsPerOne) 1
  else F64.round p.neg (p.mant * unitsPerOne) (10 ^ (-p.exp).toNat)

/-- The function `strconv.ParseFloat(s, 64)`. A number beyond the largest `float64` is
a range error. -/
def ParseFloat (s : String) : Except Err F64 :=
  let cs := s.toList
  match special cs with
  | some (v, n) => if n = cs.length then .ok v else .error (Err.numSyntax "ParseFloat" s)
  | none =>
    match readFloat cs with
    | none => .error (Err.numSyntax "ParseFloat" s)
    | some p =>
      if p.rest ≠ [] then .error (Err.numSyntax "ParseFloat" s)
      else if p.underscores && !underscoreOK cs then .error (Err.numSyntax "ParseFloat" s)
      else
        match p.value with
        | F64.inf _ => .error (Err.numRange "ParseFloat" s)
        | v => .ok v

/-- The digit loop of `strconv.ParseUint(s, 10, 64)`: `none` for a character that is not
a digit, `some (n, false)` for the value, `some (_, true)` when it leaves `uint64`. -/
def parseUintLoop : Nat → List Char → Option (Nat × Bool)
  | n, [] => some (n, false)
  | n, c :: s =>
    if isDec c then
      if 2 ^ 64 / 10 + 1 ≤ n ∨ 2 ^ 64 ≤ n * 10 + decVal c then some (2 ^ 64 - 1, true)
      else parseUintLoop (n * 10 + decVal c) s
    else none

/-- The function `strconv.Atoi` on a 64-bit platform. -/
def Atoi (s : String) : Except Err Int :=
  let cs := s.toList
  let neg := match cs with
    | '-' :: _ => true
    | _ => false
  let ds := match cs with
    | '+' :: t => t
    | '-' :: t => t
    | _ => cs
  match ds with
  | [] => .error (Err.numSyntax "Atoi" s)
  | _ =>
    match parseUintLoop 0 ds with
    | none => .error (Err.numSyntax "Atoi" s)
    | some (un, _) =>
      if !neg && 2 ^ 63 ≤ un then .error (Err.numRange "Atoi" s)
      else if neg && 2 ^ 63 < un then .error (Err.numRange "Atoi" s)
      else .ok (if neg then -(un : Int) else (un : Int))

/-! ## The Redis client (redis.go) -/

/-- The Redis client, with the content of the server it talks to. -/
structure RedisCli where
  data : String → Option String

/-- The method `GetValueByKey`: the value of a key, or the error `redis.Nil`. -/
def RedisCli.GetValueByKey (c : RedisCli) (key : String) : Except Err String :=
  match c.data key with
  | none => .error Err.redisNil
  | some value => .ok value

/-- The method `SetValueByKey`: set a key-value pair; returns the error (none) and the
new content. -/
def RedisCli.SetValueByKey (c : RedisCli) (key value : String) : Option Err × RedisCli :=
  (none, ⟨fun k => if k = key then some value else c.data k⟩)

/-! ## net/http and encoding/json -/

/-- An `http.Header`: the entries of the map, in the order a `range` visits them. The keys
of a map are distinct. -/
abbrev Header := List (String × List String)

/-- The method `Header.Set` for a key in canonical form: replace the values of the key. -/
def Header.Set (h : Header) (key value : String) : Header :=
  (key, [value]) :: h.filter (fun e => e.1 ≠ key)

/-- Modelled from the spec: the struct `User`, whose declaration is not in the given
sources. `handleBalanceGet` builds `User{ID: idInt, Balance: balanceFloat}`; its JSON form
is `{ID:int, Balance:float}`. -/
structure User where
  ID : Int
  Balance : F64
  deriving DecidableEq, Repr

/-- A field value of a JSON object. -/
inductive JsonField where
  | int (n : Int)
  | number (x : F64)
  | string (s : String)
  deriving DecidableEq, Repr

/-- A JSON object, as the list of its members in the order of the encoding. -/
abbrev JsonDoc := List (String × JsonField)

/-- The values that the program passes as `any` to `WriteJSON`. -/
inductive GoValue where
  /-- A `User` struct. -/
  | user (u : User)
  /-- The method value `err.Error`, a `func() string`. -/
  | errorMethod (err : Err)
  /-- A `map[string]interface{}` of strings and numbers, its entries in the order of the
  keys (the order in which `encoding/json` writes them). -/
  | map (entries : List (String × JsonField))
  deriving DecidableEq, Repr

/-- A value that `encoding/json` can write: not a NaN or an infinity. -/
def JsonField.encodable : JsonField → Bool
  | .number x => x.isFinite
  | _ => true

/-- The encoding of `encoding/json`: a struct is an object of its exported fields, a map
an object of its entries; a non-finite float is an unsupported value, a func an
unsupported type. -/
def jsonEncode : GoValue → Except Err JsonDoc
  | .user u =>
    if u.Balance.isFinite then
      .ok [("ID", JsonField.int u.ID), ("Balance", JsonField.number u.Balance)]
    else .error Err.jsonUnsupportedValue
  | .errorMethod _ => .error Err.jsonUnsupportedType
  | .map entries =>
    if entries.all (fun e => e.2.encodable) then .ok entries
    else .error Err.jsonUnsupportedValue

/-- A part of a response body: bytes written as they are, or a JSON document written by
a `json.Encoder` (followed by a newline). -/
inductive BodyPart where
  | raw (s : String)
  | json (doc : JsonDoc)
  deriving DecidableEq, Repr

/-- An `http.ResponseWriter`, recording what the handler writes. The header fields of the
response are not recorded. -/
structure ResponseWriter where
  /-- A final status has been written. -/
  wroteHeader : Bool
  /-- The final status, once written. -/
  status : Nat
  /-- The informational (1xx) statuses sent before the final one. -/
  informational : List Nat
  /-- The parts of the body, in the order written. -/
  body : List BodyPart
  /-- The connection to the caller is broken: a write fails. -/
  broken : Bool
  deriving DecidableEq, Repr

/-- A response writer on which nothing has been written. -/
def ResponseWriter.fresh : ResponseWriter := ⟨false, 0, [], [], false⟩

/-- The check `checkWriteHeaderCode` of net/http: `WriteHeader` panics on a code that
fails it. -/
def checkWriteHeaderCode (code : Nat) : Bool := decide (100 ≤ code) && decide (code ≤ 999)

/-- The method `WriteHeader`, for a code that passes `checkWriteHeaderCode`: a second
call is ignored; a 1xx code other than 101 is sent as an informational response. -/
def ResponseWriter.WriteHeader (w : ResponseWriter) (code : Nat) : ResponseWriter :=
  if w.wroteHeader then w
  else if 100 ≤ code ∧ code ≤ 199 ∧ code ≠ 101 then
    { w with informational := w.informational ++ [code] }
  else { w with wroteHeader := true, status := code }

/-- The function `bodyAllowedForStatus` of net/http. -/
def bodyAllowedForStatus (status : Nat) : Bool :=
  !((decide (100 ≤ status) && decide (status ≤ 199)) || status == 204 || status == 304)

/-- A part with no bytes: an empty byte string. -/
def BodyPart.isEmpty : BodyPart → Bool
  | .raw s => s == ""
  | .json _ => false

/-- The method `Write`: the status is 200 if none was written; writing nothing succeeds;
a body is refused for a status that allows none; a broken connection fails. -/
def ResponseWriter.Write (w : ResponseWriter) (part : BodyPart) : Option Err × ResponseWriter :=
  let w1 := w.WriteHeader 200
  if part.isEmpty then (none, w1)
  else if !bodyAllowedForStatus w1.status then (some Err.bodyNotAllowed, w1)
  else if w1.broken then (some Err.connWrite, w1)
  else (none, { w1 with body := w1.body ++ [part] })

/-- The function `http.Error`: write the status, then the message and a newline. -/
def httpError (w : ResponseWriter) (msg : String) (code : Nat) : ResponseWriter :=
  ((w.WriteHeader code).Write (BodyPart.raw (msg ++ "\n"))).2

/-- An inbound `http.Request`, as far as the handlers read it. -/
structure Request where
  Method : String
  /-- The route variables `mux.Vars(r)`; an absent variable reads as the empty string. -/
  vars : String → String
  Header : Header
  /-- The result of `io.ReadAll(r.Body)`; `none` when the read fails. -/
  Body : Option String

/-- The request built for the upstream API. -/
structure UpstreamRequest where
  method : String
  url : String
  header : Header
  /-- The JSON document that is the body. -/
  payload : JsonDoc
  deriving DecidableEq, Repr

/-- The response of the upstream API. -/
structure UpstreamResponse where
  StatusCode : Nat
  /-- The result of `io.ReadAll(resp.Body)`; `none` when the read fails. -/
  Body : Option String
  deriving DecidableEq, Repr

/-- What the handlers use and the given sources do not define: the network behind
`http.NewRequest` and `http.Client.Do`, and the function `CopyHeaders`. -/
structure Net where
  /-- Whether `http.NewRequest("POST", url, body)` accepts the URL. -/
  newRequestOk : String → Bool
  /-- The exchange `client.Do(req)`; `none` for a transport error or a timeout. -/
  roundTrip : UpstreamRequest → Option UpstreamResponse
  /-- The function `CopyHeaders(dst, src)`, returning the new `dst`. -/
  CopyHeaders : Header → Header → Header

/-! ## The API server (api.go) -/

/-- The function `WriteJSON`. The `Content-Type` is set after `WriteHeader`, too late to
reach the response. -/
def WriteJSON (w : ResponseWriter) (status : Nat) (v : GoValue) : Option Err × ResponseWriter :=
  let w1 := w.WriteHeader status
  match jsonEncode v with
  | .error e => (some e, w1)
  | .ok doc => w1.Write (BodyPart.json doc)

/-- The struct `ApiError`; no function of the program builds one. -/
structure ApiError where
  Error : String
  deriving DecidableEq, Repr

/-- How a handler ends. -/
inductive Outcome where
  /-- It returns this `error` (`none` is `nil`). -/
  | returned (err : Option Err)
  /-- It panics; net/http aborts the response. -/
  | panicked
  deriving DecidableEq, Repr

/-- The effects of a handler. -/
structure HandlerResult where
  outcome : Outcome
  /-- The response writer afterwards. -/
  w : ResponseWriter
  /-- The Redis content afterwards. -/
  redisCli : RedisCli
  /-- The requests handed to `client.Do`. -/
  sent : List UpstreamRequest

/-- The type `apiFunc`, a handler that may return an error. -/
abbrev apiFunc := ResponseWriter → Request → HandlerResult

/-- The function `MakeHTTPHandlerFunc`: run the handler; on an error, call `WriteJSON`
with status 200 and the method value `err.Error`, ignoring its result. -/
def MakeHTTPHandlerFunc (f : apiFunc) (w : ResponseWriter) (r : Request) : HandlerResult :=
  let res := f w r
  match res.outcome with
  | .returned (some err) => { res with w := (WriteJSON res.w 200 (GoValue.errorMethod err)).2 }
  | _ => res

/-- The struct `APIServer`. -/
structure APIServer where
  addr : String
  redisCli : RedisCli
  apiURL : String
  apiKey : String

/-- The inner loop of `checkHeaderKey` over the values of one header: `some` is the value
returned from inside the loop, `none` means that the loop ended. -/
def checkHeaderValues (c : RedisCli) (key : String) : List String → Option (Option Err)
  | [] => none
  | value :: values =>
    if key = "service-key" then
      match c.GetValueByKey ("key-" ++ value) with
      | .error err => some (some err)
      | .ok _ => some none
    else checkHeaderValues c key values

/-- The function `checkHeaderKey`: checks if the service-key of the user is stored in
Redis. -/
def checkHeaderKey (c : RedisCli) : Header → Option Err
  | [] => some Err.headerNotFound
  | (key, values) :: src =>
    match checkHeaderValues c key values with
    | some res => res
    | none => checkHeaderKey c src

/-- The method `updateUserBalance`; returns the error and the new Redis content. -/
def updateUserBalance (c : RedisCli) (id amount : String) (asc : Bool) : Option Err × RedisCli :=
  match ParseFloat amount with
  | .error err => (some err, c)
  | .ok amountFloat =>
    match c.GetValueByKey ("user-" ++ id) with
    | .error err => (some err, c)
    | .ok balanceStr =>
      match ParseFloat balanceStr with
      | .error err => (some err, c)
      | .ok balanceFloat =>
        let newBalance := if asc then balanceFloat.add amountFloat else balanceFloat.sub amountFloat
        c.SetValueByKey ("user-" ++ id) (sprintfF newBalance)

/-- The handler `handleBalanceGet`. A method other than GET gets the 405 error written,
and the handler goes on. -/
def handleBalanceGet (s : APIServer) (w : ResponseWriter) (r : Request) : HandlerResult :=
  let w0 := if r.Method ≠ "GET" then httpError w "Method not allowed" 405 else w
  let idStr := r.vars "id"
  match Atoi idStr with
  | .error err => ⟨.returned (some err), w0, s.redisCli, []⟩
  | .ok idInt =>
    match s.redisCli.GetValueByKey ("user-" ++ idStr) with
    | .error err => ⟨.returned (some err), w0, s.redisCli, []⟩
    | .ok balanceStr =>
      match ParseFloat balanceStr with
      | .error err => ⟨.returned (some err), w0, s.redisCli, []⟩
      | .ok balanceFloat =>
        ⟨.returned none, (WriteJSON w0 200 (GoValue.user ⟨idInt, balanceFloat⟩)).2, s.redisCli, []⟩

/-- The handler `handleBalanceTopUpRequest`. -/
def handleBalanceTopUpRequest (s : APIServer) (w : ResponseWriter) (r : Request) :
    HandlerResult :=
  match updateUserBalance s.redisCli (r.vars "id") (r.vars "amount") true with
  | (err, c) => ⟨.returned err, w, c, []⟩

/-- The handler `handleBalanceDeductRequest`. -/
def handleBalanceDeductRequest (s : APIServer) (w : ResponseWriter) (r : Request) :
    HandlerResult :=
  match updateUserBalance s.redisCli (r.vars "id") (r.vars "amount") false with
  | (err, c) => ⟨.returned err, w, c, []⟩

/-- The map `payload` of `handleChatGPTProxyRequest`, its entries in the order of the
keys. -/
def chatPayload (requestBody : String) : List (String × JsonField) :=
  [("max_tokens", JsonField.int 100), ("model", JsonField.string "gpt-3.5-turbo"),
   ("prompt", JsonField.string requestBody), ("temperature", JsonField.number F64.one)]

/-- The upstream request that `handleChatGPTProxyRequest` builds from the encoded
payload: the headers of the caller, then `Authorization` and `Content-Type` set. -/
def upstreamRequest (s : APIServer) (net : Net) (r : Request) (payloadBytes : JsonDoc) :
    UpstreamRequest :=
  ⟨"POST", s.apiURL,
   Header.Set (Header.Set (net.CopyHeaders [] r.Header) "Authorization" ("Bearer " ++ s.apiKey))
     "Content-Type" "application/json",
   payloadBytes⟩

/-- The handler `handleChatGPTProxyRequest`. The result of `checkHeaderKey` is not
used. -/
def handleChatGPTProxyRequest (s : APIServer) (net : Net) (w : ResponseWriter) (r : Request) :
    HandlerResult :=
  match r.Body with
  | none => ⟨.returned (some (Err.errorf "Error reading request body: 500")), w, s.redisCli, []⟩
  | some requestBody =>
    let _ := checkHeaderKey s.redisCli r.Header
    match jsonEncode (GoValue.map (chatPayload requestBody)) with
    | .error _ =>
      ⟨.returned (some (Err.errorf "Error creating request payload: 500")), w, s.redisCli, []⟩
    | .ok payloadBytes =>
      if !net.newRequestOk s.apiURL then
        ⟨.returned (some (Err.errorf "Error creating API request: 500")), w, s.redisCli, []⟩
      else
        let req := upstreamRequest s net r payloadBytes
        match net.roundTrip req with
        | none =>
          ⟨.returned (some (Err.errorf "Error sending API request: 500")), w, s.redisCli, [req]⟩
        | some resp =>
          match resp.Body with
          | none =>
            ⟨.returned (some (Err.errorf "Error reading API response: 500")), w, s.redisCli,
              [req]⟩
          | some responseBody =>
            if !w.wroteHeader && !checkWriteHeaderCode resp.StatusCode then
              ⟨.panicked, w, s.redisCli, [req]⟩
            else
              match (w.WriteHeader resp.StatusCode).Write (BodyPart.raw responseBody) with
              | (some _, w1) =>
                ⟨.returned (some (Err.errorf "Error writing response: 500")), w1, s.redisCli,
                  [req]⟩
              | (none, w1) => ⟨.returned none, w1, s.redisCli, [req]⟩

/-! ## Two concurrent calls of `updateUserBalance`

The function does one read of Redis and one write; two calls on one store interleave at
these two operations. -/

/-- The key holds a text that `ParseFloat` accepts. -/
def RedisCli.parseable (c : RedisCli) (key : String) : Prop :=
  ∃ v x, c.data key = some v ∧ ParseFloat v = .ok x

/-- The magnitude of a finite value is at most the largest `float64`. -/
def F64.Bounded : F64 → Prop
  | F64.fin _ n => n ≤ maxFin
  | _ => True

/-- A natural number of units with at most 53 significant bits. -/
def Representable (n : Nat) : Prop := ∃ a j, a < 2 ^ 53 ∧ n = a * 2 ^ j

/-- The `float64` of an integer. -/
def F64.ofInt (z : Int) : F64 := F64.fin (decide (z < 0)) (z.natAbs * unitsPerOne)

/-- The float that `ParseFloat` reads in the `%f` text of a finite value. -/
def reread (n : Nat) : Nat := roundUnits (rhe (n * 10 ^ 6) unitsPerOne * unitsPerOne) (10 ^ 6)

/-- The number that a list of decimal digits denotes. -/
def digitsVal (ds : List Char) : Nat := ds.foldl (fun a c => a * 10 + decVal c) 0

/-- The mantissa state after the decimal digits `ds`. -/
def pushDigits (m : Mant) (ds : List Char) : Mant :=
  ds.foldl (fun m c => m.push 10 (decVal c)) m

/-! ## Stores, servers and requests of the examples -/

/-- A store with no key. -/
def emptyStore : RedisCli := ⟨fun _ => none⟩

/-- A store holding the single credential `abc`. -/
def credentialStore : RedisCli := ⟨fun k => if k = "key-abc" then some "1" else none⟩

/-- A store where user 1 has the balance `10`. -/
def tenStore : RedisCli := ⟨fun k => if k = "user-1" then some "10" else none⟩

/-- A server over an empty store. -/
def emptyServer : APIServer := ⟨":8000", emptyStore, "https://upstream.example/v1", "sk"⟩

/-- A server whose store holds the balance `10` for user 1. -/
def tenServer : APIServer := ⟨":8000", tenStore, "https://upstream.example/v1", "sk"⟩

/-- A server whose store holds the given balance text for user 1. -/
def serverWith (balance : String) : APIServer :=
  ⟨":8000", ⟨fun k => if k = "user-1" then some balance else none⟩,
    "https://upstream.example/v1", "sk"⟩

/-- A request `GET /balance/1`. -/
def getOne : Request := ⟨"GET", fun _ => "1", [], some ""⟩

/-- An upstream that answers every request with status 200 and the body `pong`; headers
are copied by taking the source. -/
def pongNet : Net := ⟨fun _ => true, fun _ => some ⟨200, some "pong"⟩, fun _ src => src⟩

/-! ## The access gate -/

theorem checkHeaderValues_other (c : RedisCli) (key : String) (values : List String)
    (h : key ≠ "service-key") : checkHeaderValues c key values = none := by
  induction values with
  | nil => rfl
  | cons v vs ih => simp [checkHeaderValues, h, ih]

theorem checkHeaderValues_cons (c : RedisCli) (v : String) (vs : List String) :
    checkHeaderValues c "service-key" (v :: vs)
      = some (if (c.data ("key-" ++ v)).isSome then none else some Err.redisNil) := by
  simp only [checkHeaderValues, RedisCli.GetValueByKey, if_true]
  cases c.data ("key-" ++ v) <;> simp

theorem checkHeaderKey_absent (c : RedisCli) (src : Header)
    (h : "service-key" ∉ src.map Prod.fst) : checkHeaderKey c src = some Err.headerNotFound := by
  induction src with
  | nil => rfl
  | cons e src ih =>
    obtain ⟨key, values⟩ := e
    simp only [List.map_cons, List.mem_cons, not_or] at h
    have hk : key ≠ "service-key" := fun hk => h.1 hk.symm
    simp [checkHeaderKey, checkHeaderValues_other c key values hk, ih h.2]

/-- C2. For every header map (distinct keys, visited in any order) and every content of
the store, `checkHeaderKey` returns `nil` exactly when the map has an entry under the very
key `service-key` whose first value `v` has a `key-v` entry in the store; a later value
is never looked at, and no other spelling of the key counts. -/
theorem checkHeaderKey_nil_iff (c : RedisCli) (src : Header)
    (hkeys : (src.map Prod.fst).Nodup) :
    checkHeaderKey c src = none ↔
      ∃ v vs, ("service-key", v :: vs) ∈ src ∧ (c.data ("key-" ++ v)).isSome = true := by
  induction src with
  | nil => simp [checkHeaderKey]
  | cons e src ih =>
    obtain ⟨key, values⟩ := e
    simp only [List.map_cons, List.nodup_cons] at hkeys
    obtain ⟨hnot, hnd⟩ := hkeys
    by_cases hk : key = "service-key"
    · subst hk
      have hmem : ∀ v vs, ("service-key", v :: vs) ∉ src := by
        intro v vs hm
        exact hnot (List.mem_map.mpr ⟨_, hm, rfl⟩)
      cases values with
      | nil =>
        simp only [checkHeaderKey, checkHeaderValues, checkHeaderKey_absent c src hnot]
        constructor
        · intro h; cases h
        · rintro ⟨v, vs, hm, -⟩
          simp only [List.mem_cons, Prod.mk.injEq, true_and] at hm
          rcases hm with hm | hm
          · cases hm
          · exact absurd hm (hmem v vs)
      | cons v vs =>
        simp only [checkHeaderKey, checkHeaderValues_cons]
        constructor
        · intro h
          refine ⟨v, vs, List.mem_cons_self _ _, ?_⟩
          by_contra hc
          simp [hc] at h
        · rintro ⟨v1, vs1, hm, hv⟩
          simp only [List.mem_cons, Prod.mk.injEq, true_and, List.cons.injEq] at hm
          rcases hm with ⟨h1, -⟩ | hm
          · subst h1; simp [hv]
          · exact absurd hm (hmem v1 vs1)
    · simp only [checkHeaderKey, checkHeaderValues_other c key values hk]
      rw [ih hnd]
      constructor
      · rintro ⟨v, vs, hm, hv⟩
        exact ⟨v, vs, List.mem_cons_of_mem _ hm, hv⟩
      · rintro ⟨v, vs, hm, hv⟩
        simp only [List.mem_cons, Prod.mk.injEq] at hm
        rcases hm with ⟨h1, -⟩ | hm
        · exact absurd h1.symm hk
        · exact ⟨v, vs, hm, hv⟩

/-- C2, at a concrete header map: the first value `abc` is a stored credential. -/
theorem checkHeaderKey_nil_iff_witness :
    ([("Accept", ["*/*"]), ("service-key", ["abc", "zzz"])].map Prod.fst).Nodup ∧
    (checkHeaderKey credentialStore [("Accept", ["*/*"]), ("service-key", ["abc", "zzz"])] = none ↔
      ∃ v vs, ("service-key", v :: vs) ∈ [("Accept", ["*/*"]), ("service-key", ["abc", "zzz"])] ∧
        (credentialStore.data ("key-" ++ v)).isSome = true) :=
  ⟨by decide, checkHeaderKey_nil_iff credentialStore _ (by decide)⟩

/-! ## Balances of absent users -/

theorem httpError_json_mem (w : ResponseWriter) (msg : String) (code : Nat) (doc : JsonDoc)
    (h : BodyPart.json doc ∈ (httpError w msg code).body) : BodyPart.json doc ∈ w.body := by
  simp only [httpError, ResponseWriter.Write, ResponseWriter.WriteHeader, BodyPart.isEmpty] at h
  repeat' split at h
  all_goals simp_all

/-- What `handleBalanceGet` returns for an id with no `user-{id}` key. -/
theorem handleBalanceGet_absent (s : APIServer) (w : ResponseWriter) (r : Request)
    (hmiss : s.redisCli.data ("user-" ++ r.vars "id") = none) :
    ∃ err, handleBalanceGet s w r
      = ⟨Outcome.returned (some err),
          if r.Method ≠ "GET" then httpError w "Method not allowed" 405 else w, s.redisCli, []⟩ ∧
        ((∃ n, Atoi (r.vars "id") = .ok n) → err = Err.redisNil) := by
  cases hid : Atoi (r.vars "id") with
  | error e =>
    refine ⟨e, by simp only [handleBalanceGet, hid], ?_⟩
    rintro ⟨n, hn⟩; cases hn
  | ok n =>
    exact ⟨Err.redisNil, by simp only [handleBalanceGet, hid, RedisCli.GetValueByKey, hmiss],
      fun _ => rfl⟩

/-- C5. For every id with no `user-{id}` key, `handleBalanceGet` returns an error, which
is `redis.Nil` whenever the id is a decimal integer (otherwise `Atoi` has failed before the
store is read); it writes no JSON document (so no `User`, with balance 0 or other) and
leaves the store as it was. -/
theorem handleBalanceGet_missing (s : APIServer) (w : ResponseWriter) (r : Request)
    (hmiss : s.redisCli.data ("user-" ++ r.vars "id") = none) :
    (∃ err, (handleBalanceGet s w r).outcome = Outcome.returned (some err) ∧
      ((∃ n, Atoi (r.vars "id") = .ok n) → err = Err.redisNil)) ∧
    (∀ doc, BodyPart.json doc ∈ (handleBalanceGet s w r).w.body → BodyPart.json doc ∈ w.body) ∧
    (handleBalanceGet s w r).redisCli = s.redisCli := by
  obtain ⟨err, hres, herr⟩ := handleBalanceGet_absent s w r hmiss
  rw [hres]
  refine ⟨⟨err, rfl, herr⟩, ?_, rfl⟩
  intro doc hdoc
  simp only at hdoc
  split at hdoc
  · exact httpError_json_mem _ _ _ _ hdoc
  · exact hdoc

/-- C5, at a concrete request: `GET /balance/7` on an empty store. -/
theorem handleBalanceGet_missing_witness :
    emptyStore.data ("user-" ++ "7") = none ∧
    (handleBalanceGet ⟨":8000", emptyStore, "u", "k"⟩ ResponseWriter.fresh
        ⟨"GET", fun _ => "7", [], some ""⟩).outcome = Outcome.returned (some Err.redisNil) :=
  ⟨rfl, by
    obtain ⟨⟨err, h1, h2⟩, -, -⟩ := handleBalanceGet_missing ⟨":8000", emptyStore, "u", "k"⟩
      ResponseWriter.fresh ⟨"GET", fun _ => "7", [], some ""⟩ rfl
    rw [h1, h2 ⟨7, by decide⟩]⟩

/-- C6, as stated, fails: on an empty store the top-up of user 1 by the parseable amount
`5` returns `redis.Nil`, and the key `user-1` is still absent afterwards. -/
theorem topUp_missing_counterexample :
    emptyStore.data "user-1" = none ∧ ParseFloat "5" = .ok (F64.fin false (5 * unitsPerOne)) ∧
    (updateUserBalance emptyStore "1" "5" true).1 = some Err.redisNil ∧
    (updateUserBalance emptyStore "1" "5" true).2.data "user-1" = none := by
  refine ⟨rfl, by decide!, by decide!, by decide!⟩

/-- C6, amended. No operation creates a balance entry: for every id with no `user-{id}`
key, every amount string and either direction, `updateUserBalance` (the top-up as well as
the deduct) returns an error, which is `redis.Nil` when the amount parses, and leaves the
store as it was; `handleBalanceGet` returns an error too and leaves the store as it was. -/
theorem updateUserBalance_missing (s : APIServer) (w : ResponseWriter) (r : Request)
    (amount : String) (asc : Bool)
    (hmiss : s.redisCli.data ("user-" ++ r.vars "id") = none) :
    (∃ err, updateUserBalance s.redisCli (r.vars "id") amount asc = (some err, s.redisCli) ∧
      ((∃ a, ParseFloat amount = .ok a) → err = Err.redisNil)) ∧
    (∃ err, (handleBalanceGet s w r).outcome = Outcome.returned (some err) ∧
      (handleBalanceGet s w r).redisCli = s.redisCli) := by
  constructor
  · unfold updateUserBalance
    cases ha : ParseFloat amount with
    | error e => exact ⟨e, rfl, by rintro ⟨a, h⟩; cases h⟩
    | ok a =>
      simp only [RedisCli.GetValueByKey, hmiss]
      exact ⟨Err.redisNil, rfl, fun _ => rfl⟩
  · obtain ⟨err, hres, -⟩ := handleBalanceGet_absent s w r hmiss
    rw [hres]
    exact ⟨err, rfl, rfl⟩

/-- C6 amended, at the top-up of user 1 by `5` on an empty store. -/
theorem updateUserBalance_missing_witness :
    emptyServer.redisCli.data ("user-" ++ getOne.vars "id") = none ∧
    (∃ err, updateUserBalance emptyServer.redisCli (getOne.vars "id") "5" true
        = (some err, emptyServer.redisCli) ∧
      ((∃ a, ParseFloat "5" = .ok a) → err = Err.redisNil)) ∧
    (∃ err, (handleBalanceGet emptyServer ResponseWriter.fresh getOne).outcome
        = Outcome.returned (some err) ∧
      (handleBalanceGet emptyServer ResponseWriter.fresh getOne).redisCli
        = emptyServer.redisCli) :=
  ⟨rfl, updateUserBalance_missing emptyServer ResponseWriter.fresh getOne "5" true rfl⟩

/-! ## The proxy route and the error wrapper -/

/-- C1, the failing input: a request with no `service-key` header and body `hello`, on a
store with no credential. `checkHeaderKey` fails, and still the handler returns `nil`,
has sent the upstream request and has copied the upstream status and body. The same
happens with a `service-key` header whose value has no `key-` entry. -/
theorem proxy_forwards_unauthorized :
    checkHeaderKey emptyStore [] = some Err.headerNotFound ∧
    (handleChatGPTProxyRequest emptyServer pongNet ResponseWriter.fresh
        ⟨"POST", fun _ => "", [], some "hello"⟩).outcome = Outcome.returned none ∧
    (handleChatGPTProxyRequest emptyServer pongNet ResponseWriter.fresh
        ⟨"POST", fun _ => "", [], some "hello"⟩).sent =
      [⟨"POST", "https://upstream.example/v1",
        [("Content-Type", ["application/json"]), ("Authorization", ["Bearer sk"])],
        chatPayload "hello"⟩] ∧
    (handleChatGPTProxyRequest emptyServer pongNet ResponseWriter.fresh
        ⟨"POST", fun _ => "", [], some "hello"⟩).w =
      ⟨true, 200, [], [BodyPart.raw "pong"], false⟩ ∧
    checkHeaderKey emptyStore [("service-key", ["nope"])] = some Err.redisNil ∧
    (handleChatGPTProxyRequest emptyServer pongNet ResponseWriter.fresh
        ⟨"POST", fun _ => "", [("service-key", ["nope"])], some "hello"⟩).outcome
      = Outcome.returned none ∧
    (handleChatGPTProxyRequest emptyServer pongNet ResponseWriter.fresh
        ⟨"POST", fun _ => "", [("service-key", ["nope"])], some "hello"⟩).sent.length = 1 ∧
    (handleChatGPTProxyRequest emptyServer pongNet ResponseWriter.fresh
        ⟨"POST", fun _ => "", [("service-key", ["nope"])], some "hello"⟩).w =
      ⟨true, 200, [], [BodyPart.raw "pong"], false⟩ := by
  refine ⟨rfl, by decide, by decide, by decide, by decide, by decide, by decide, by decide⟩

/-- The proxy handler does not depend on the store: with any other content `c`, so with
or without the credential of the request, it ends the same way, sends the same requests
and writes the same response. -/
theorem proxy_ignores_store (s : APIServer) (c : RedisCli) (net : Net) (w : ResponseWriter)
    (r : Request) :
    (handleChatGPTProxyRequest ⟨s.addr, c, s.apiURL, s.apiKey⟩ net w r).outcome
      = (handleChatGPTProxyRequest s net w r).outcome ∧
    (handleChatGPTProxyRequest ⟨s.addr, c, s.apiURL, s.apiKey⟩ net w r).sent
      = (handleChatGPTProxyRequest s net w r).sent ∧
    (handleChatGPTProxyRequest ⟨s.addr, c, s.apiURL, s.apiKey⟩ net w r).w
      = (handleChatGPTProxyRequest s net w r).w := by
  simp only [handleChatGPTProxyRequest, upstreamRequest]
  repeat' split
  all_goals simp_all

/-- The wrapper never writes a body: whatever the handler returns, the body after
`MakeHTTPHandlerFunc` is the body the handler left. -/
theorem MakeHTTPHandlerFunc_body (f : apiFunc) (w : ResponseWriter) (r : Request) :
    (MakeHTTPHandlerFunc f w r).w.body = (f w r).w.body := by
  simp only [MakeHTTPHandlerFunc]
  split
  · simp only [WriteJSON, jsonEncode, ResponseWriter.WriteHeader]
    repeat' split
    all_goals rfl
  · rfl

/-- C7, the failing input: `GET /balance/abc`. The handler returns the `Atoi` error; the
response of the wrapper has status 200 and an empty body, not a JSON object with the
message: the method value `err.Error` is a func, which `encoding/json` refuses. -/
theorem errorResponse_has_no_body :
    (handleBalanceGet emptyServer ResponseWriter.fresh
        ⟨"GET", fun _ => "abc", [], some ""⟩).outcome
      = Outcome.returned (some (Err.numSyntax "Atoi" "abc")) ∧
    jsonEncode (GoValue.errorMethod (Err.numSyntax "Atoi" "abc")) = .error Err.jsonUnsupportedType ∧
    (MakeHTTPHandlerFunc (handleBalanceGet emptyServer) ResponseWriter.fresh
        ⟨"GET", fun _ => "abc", [], some ""⟩).w = ⟨true, 200, [], [], false⟩ := by
  refine ⟨by decide, rfl, by decide⟩

theorem digitChar_isDec (d : Nat) (h : d < 10) : isDec (digitChar d) = true := by
  interval_cases d <;> decide

theorem decVal_digitChar (d : Nat) (h : d < 10) : decVal (digitChar d) = d := by
  interval_cases d <;> decide

theorem isDec_toNat (c : Char) (h : isDec c = true) : 48 ≤ c.toNat ∧ c.toNat ≤ 57 := by
  simp only [isDec, Bool.and_eq_true, decide_eq_true_eq] at h
  exact h

theorem isDec_ne (c d : Char) (h : isDec c = true) (hd : isDec d = false) : c ≠ d := by
  intro hcd
  rw [hcd, hd] at h
  cases h

theorem digitsVal_append (xs ys : List Char) :
    digitsVal (xs ++ ys) = digitsVal xs * 10 ^ ys.length + digitsVal ys := by
  induction ys using List.reverseRecOn generalizing xs with
  | nil => simp [digitsVal]
  | append_singleton ys y ih =>
    rw [← List.append_assoc]
    simp only [digitsVal, List.foldl_append, List.foldl_cons, List.foldl_nil, List.length_append,
      List.length_singleton] at ih ⊢
    rw [ih xs, pow_succ]
    ring

theorem decDigitsAux_acc (fuel n : Nat) (acc : List Char) :
    decDigitsAux fuel n acc = decDigitsAux fuel n [] ++ acc := by
  induction fuel generalizing n acc with
  | zero => simp [decDigitsAux]
  | succ fuel ih =>
    simp only [decDigitsAux]
    split
    · simp
    · rw [ih (n / 10) (digitChar (n % 10) :: acc), ih (n / 10) [digitChar (n % 10)]]
      simp

theorem decDigitsAux_isDec (fuel n : Nat) : ∀ c ∈ decDigitsAux fuel n [], isDec c = true := by
  induction fuel generalizing n with
  | zero => simp [decDigitsAux]
  | succ fuel ih =>
    intro c hc
    simp only [decDigitsAux] at hc
    split at hc
    · simp only [List.mem_singleton] at hc
      rw [hc]; exact digitChar_isDec n (by assumption)
    · rw [decDigitsAux_acc] at hc
      simp only [List.mem_append, List.mem_singleton] at hc
      rcases hc with hc | hc
      · exact ih _ c hc
      · rw [hc]; exact digitChar_isDec _ (Nat.mod_lt _ (by norm_num))

theorem decDigitsAux_val (fuel n : Nat) (h : n < fuel) :
    digitsVal (decDigitsAux fuel n []) = n := by
  induction fuel generalizing n with
  | zero => omega
  | succ fuel ih =>
    simp only [decDigitsAux]
    split
    · rename_i hn
      simp [digitsVal, decVal_digitChar n hn]
    · rw [decDigitsAux_acc, digitsVal_append, ih (n / 10) (by omega)]
      simp only [List.length_singleton, pow_one, digitsVal, List.foldl_cons, List.foldl_nil,
        zero_mul, zero_add]
      rw [decVal_digitChar _ (Nat.mod_lt _ (by norm_num))]
      omega

theorem decDigits_isDec (n : Nat) : ∀ c ∈ decDigits n, isDec c = true :=
  decDigitsAux_isDec (n + 1) n

theorem decDigits_val (n : Nat) : digitsVal (decDigits n) = n :=
  decDigitsAux_val (n + 1) n (Nat.lt_succ_self n)

theorem decDigits_ne_nil (n : Nat) : decDigits n ≠ [] := by
  unfold decDigits
  simp only [decDigitsAux]
  split
  · simp
  · rw [decDigitsAux_acc]; simp

theorem sixDigits_isDec (t : Nat) : ∀ c ∈ sixDigits t, isDec c = true := by
  intro c hc
  simp only [sixDigits, List.mem_cons, List.mem_singleton, List.not_mem_nil, or_false] at hc
  rcases hc with h | h | h | h | h | h <;> rw [h] <;>
    exact digitChar_isDec _ (Nat.mod_lt _ (by norm_num))

theorem sixDigits_val (t : Nat) (h : t < 10 ^ 6) : digitsVal (sixDigits t) = t := by
  simp only [sixDigits, digitsVal, List.foldl_cons, List.foldl_nil]
  rw [decVal_digitChar _ (Nat.mod_lt _ (by norm_num)), decVal_digitChar _ (Nat.mod_lt _ (by norm_num)),
    decVal_digitChar _ (Nat.mod_lt _ (by norm_num)), decVal_digitChar _ (Nat.mod_lt _ (by norm_num)),
    decVal_digitChar _ (Nat.mod_lt _ (by norm_num)), decVal_digitChar _ (Nat.mod_lt _ (by norm_num))]
  omega

theorem sixDigits_length (t : Nat) : (sixDigits t).length = 6 := rfl

/-! ## Reading back what `%f` prints -/

theorem digitsVal_cons (c : Char) (ds : List Char) :
    digitsVal (c :: ds) = decVal c * 10 ^ ds.length + digitsVal ds := by
  have h := digitsVal_append [c] ds
  simpa [digitsVal] using h

theorem pushDigits_eq (m : Mant) (ds : List Char) :
    pushDigits m ds =
      ⟨m.sawdot, m.sawdigits || !ds.isEmpty, m.underscores,
        m.mant * 10 ^ ds.length + digitsVal ds,
        if m.sawdot then m.frac + ds.length else m.frac⟩ := by
  induction ds generalizing m with
  | nil => cases m; simp [pushDigits, digitsVal]
  | cons c ds ih =>
    have h : pushDigits m (c :: ds) = pushDigits (m.push 10 (decVal c)) ds := rfl
    rw [h, ih, digitsVal_cons]
    simp only [Mant.push, Mant.mk.injEq, List.length_cons, List.isEmpty_cons, Bool.not_false,
      Bool.or_true, true_and, pow_succ]
    refine ⟨by simp, by ring, ?_⟩
    cases m.sawdot
    · simp
    · simp only [if_true]
      omega

theorem readMantissa_digits (m : Mant) (ds rest : List Char)
    (h : ∀ c ∈ ds, isDec c = true) :
    readMantissa false m (ds ++ rest) = readMantissa false (pushDigits m ds) rest := by
  induction ds generalizing m with
  | nil => rfl
  | cons c ds ih =>
    have hc : isDec c = true := h c (List.mem_cons_self _ _)
    have h1 : c ≠ '_' := isDec_ne c '_' hc (by decide)
    have h2 : c ≠ '.' := isDec_ne c '.' hc (by decide)
    have h3 : readMantissa false m (c :: (ds ++ rest))
        = readMantissa false (m.push 10 (decVal c)) (ds ++ rest) := by
      simp [readMantissa, h1, h2, hc]
    rw [List.cons_append, h3, ih _ (fun c hc => h c (List.mem_cons_of_mem _ hc))]
    rfl

theorem readMantissa_fixed (ds fs : List Char) (hds : ∀ c ∈ ds, isDec c = true)
    (hfs : ∀ c ∈ fs, isDec c = true) (hne : ds ≠ []) :
    readMantissa false ⟨false, false, false, 0, 0⟩ (ds ++ '.' :: fs)
      = (⟨true, true, false, digitsVal ds * 10 ^ fs.length + digitsVal fs, fs.length⟩, []) := by
  rw [readMantissa_digits _ _ _ hds, pushDigits_eq]
  have h1 : ∀ m : Mant, m.sawdot = false →
      readMantissa false m ('.' :: fs) = readMantissa false { m with sawdot := true } fs := by
    intro m hm
    simp [readMantissa, hm]
  rw [h1 _ rfl]
  have h2 := readMantissa_digits
    { sawdot := true, sawdigits := false || !ds.isEmpty, underscores := false,
      mant := 0 * 10 ^ ds.length + digitsVal ds, frac := 0 } fs [] hfs
  rw [List.append_nil] at h2
  simp only [Bool.false_eq_true, if_false] at h2 ⊢
  rw [h2, pushDigits_eq]
  have h3 : ds.isEmpty = false := by
    cases ds with
    | nil => exact absurd rfl hne
    | cons _ _ => rfl
  simp [readMantissa, h3]

theorem isDec_lowerAZ (c : Char) (h : isDec c = true) : lowerAZ c = c := by
  have h1 := isDec_toNat c h
  unfold lowerAZ
  have h2 : ¬ ('A' ≤ c) := by
    intro h3
    have h4 : 65 ≤ c.toNat := h3
    omega
  simp [h2]

theorem specialInf_digit (c : Char) (s : List Char) (h : isDec c = true) :
    specialInf (c :: s) = none := by
  have h1 : c ≠ 'i' := isDec_ne c 'i' h (by decide)
  simp [specialInf, commonLenIgnoreCase, infinityWord, isDec_lowerAZ c h, h1]

theorem special_digit (c : Char) (s : List Char) (h : isDec c = true) :
    special (c :: s) = none := by
  have h1 : c ≠ '+' := isDec_ne c '+' h (by decide)
  have h2 : c ≠ '-' := isDec_ne c '-' h (by decide)
  have h3 : c ≠ 'i' := isDec_ne c 'i' h (by decide)
  have h4 : c ≠ 'I' := isDec_ne c 'I' h (by decide)
  have h5 : c ≠ 'n' := isDec_ne c 'n' h (by decide)
  have h6 : c ≠ 'N' := isDec_ne c 'N' h (by decide)
  simp [special, h1, h2, h3, h4, h5, h6]

theorem special_minus_digit (c : Char) (s : List Char) (h : isDec c = true) :
    special ('-' :: c :: s) = none := by
  simp [special, specialInf_digit c s h]

theorem hasHexMark_fixed (ds fs : List Char) (hds : ∀ c ∈ ds, isDec c = true) :
    hasHexMark (ds ++ '.' :: fs) = false := by
  match ds, hds with
  | [], _ => cases fs with
    | nil => rfl
    | cons f fs => cases fs <;> simp [hasHexMark]
  | [d], _ => cases fs <;> simp [hasHexMark]
  | d :: x :: ds, hds =>
    have hx : isDec x = true := hds x (by simp)
    have h1 : x ≠ 'x' := isDec_ne x 'x' hx (by decide)
    have h2 : x ≠ 'X' := isDec_ne x 'X' hx (by decide)
    cases ds with
    | nil => simp [hasHexMark, h1, h2]
    | cons y ds => simp [hasHexMark, h1, h2]

/-- What `readFloat` reads in `[-]ddd.ffffff`. -/
theorem readFloat_fixed (neg : Bool) (ds fs : List Char) (hds : ∀ c ∈ ds, isDec c = true)
    (hfs : ∀ c ∈ fs, isDec c = true) (hne : ds ≠ []) :
    readFloat ((if neg then ['-'] else []) ++ ds ++ '.' :: fs)
      = some ⟨neg, false, digitsVal ds * 10 ^ fs.length + digitsVal fs, -(fs.length : Int),
          false, []⟩ := by
  have hsign : readSign ((if neg then ['-'] else []) ++ ds ++ '.' :: fs)
      = (neg, ds ++ '.' :: fs) := by
    cases neg with
    | true => simp [readSign]
    | false =>
      obtain ⟨d, ds', rfl⟩ := List.exists_cons_of_ne_nil hne
      have hd : isDec d = true := hds d (List.mem_cons_self _ _)
      have h1 : d ≠ '+' := isDec_ne d '+' hd (by decide)
      have h2 : d ≠ '-' := isDec_ne d '-' hd (by decide)
      simp [readSign, h1, h2]
  simp only [readFloat, hsign, hasHexMark_fixed ds fs hds, Bool.false_eq_true, if_false,
    readMantissa_fixed ds fs hds hfs hne, if_true, readExponent]

/-! ## Rounding stays in range -/

theorem rhe_le (num den N : Nat) (h : num ≤ N * den) : rhe num den ≤ N := by
  rcases Nat.eq_zero_or_pos den with hden | hden
  · subst hden
    have h0 : num = 0 := by simpa using h
    subst h0
    simp [rhe]
  have hq : num / den ≤ N := Nat.div_le_of_le_mul (by rw [Nat.mul_comm]; exact h)
  have hdm := Nat.div_add_mod num den
  unfold rhe
  simp only
  rcases Nat.lt_or_ge (num / den) N with hlt | hge
  · split_ifs <;> omega
  · have hqN : num / den = N := le_antisymm hq hge
    have hr : num % den = 0 := by
      rw [hqN, Nat.mul_comm] at hdm
      omega
    rw [hr, hqN]
    simp [hden]

theorem shiftFor_le (fuel x K : Nat) (h : x < 2 ^ 53 * 2 ^ K) : shiftFor fuel x ≤ K := by
  induction fuel generalizing x K with
  | zero => simp [shiftFor]
  | succ fuel ih =>
    simp only [shiftFor]
    split
    · omega
    · rename_i hx
      cases K with
      | zero => simp at h; omega
      | succ K =>
        have h1 : x / 2 < 2 ^ 53 * 2 ^ K := by
          rw [pow_succ] at h
          omega
        have := ih (x / 2) K h1
        omega

theorem maxFin_lt : maxFin < 2 ^ 53 * 2 ^ 2045 := by
  unfold maxFin
  have h : (0 : Nat) < 2 ^ 2045 := Nat.two_pow_pos 2045
  have h2 : (2 : Nat) ^ 53 - 1 < 2 ^ 53 := by norm_num
  exact Nat.mul_lt_mul_of_pos_right h2 h

theorem roundUnits_le_maxFin (num den : Nat) (h : num ≤ maxFin * den) :
    roundUnits num den ≤ maxFin := by
  have hfl : num / den ≤ maxFin := Nat.div_le_of_le_mul (by rw [Nat.mul_comm]; exact h)
  have hk : shiftFor (num / den) (num / den) ≤ 2045 :=
    shiftFor_le _ _ _ (lt_of_le_of_lt hfl maxFin_lt)
  unfold roundUnits
  simp only
  generalize shiftFor (num / den) (num / den) = k at hk
  have hsplit : maxFin = (2 ^ 53 - 1) * 2 ^ (2045 - k) * 2 ^ k := by
    unfold maxFin
    rw [Nat.mul_assoc, ← pow_add, Nat.sub_add_cancel hk]
  have h1 : rhe num (den * 2 ^ k) ≤ (2 ^ 53 - 1) * 2 ^ (2045 - k) := by
    apply rhe_le
    calc num ≤ maxFin * den := h
      _ = (2 ^ 53 - 1) * 2 ^ (2045 - k) * (den * 2 ^ k) := by rw [hsplit]; ring
  calc rhe num (den * 2 ^ k) * 2 ^ k ≤ (2 ^ 53 - 1) * 2 ^ (2045 - k) * 2 ^ k :=
        Nat.mul_le_mul_right _ h1
    _ = maxFin := hsplit.symm

theorem F64.round_bounded (s : Bool) (num den : Nat) : (F64.round s num den).Bounded := by
  unfold F64.round
  simp only
  split
  · trivial
  · rename_i h
    exact Nat.le_of_not_lt h

theorem F64.add_bounded (x y : F64) : (F64.add x y).Bounded := by
  cases x <;> cases y <;> simp only [F64.add] <;> try trivial
  · split <;> trivial
  · split_ifs
    · exact F64.round_bounded _ _ _
    · exact Nat.zero_le _
    · exact F64.round_bounded _ _ _
    · exact F64.round_bounded _ _ _

theorem F64.sub_bounded (x y : F64) : (F64.sub x y).Bounded := F64.add_bounded _ _

/-- The six-decimal rounding of a value in range, times `10^6`. -/
theorem rhe_six_le (n : Nat) (h : n ≤ maxFin) :
    rhe (n * 10 ^ 6) unitsPerOne * unitsPerOne ≤ maxFin * 10 ^ 6 := by
  have hmax : maxFin = (2 ^ 53 - 1) * 2 ^ 971 * unitsPerOne := by
    unfold maxFin unitsPerOne
    rw [Nat.mul_assoc, ← pow_add]
  have h1 : rhe (n * 10 ^ 6) unitsPerOne ≤ (2 ^ 53 - 1) * 2 ^ 971 * 10 ^ 6 := by
    apply rhe_le
    calc n * 10 ^ 6 ≤ maxFin * 10 ^ 6 := Nat.mul_le_mul_right _ h
      _ = (2 ^ 53 - 1) * 2 ^ 971 * 10 ^ 6 * unitsPerOne := by rw [hmax]; ring
  calc rhe (n * 10 ^ 6) unitsPerOne * unitsPerOne
      ≤ (2 ^ 53 - 1) * 2 ^ 971 * 10 ^ 6 * unitsPerOne := Nat.mul_le_mul_right _ h1
    _ = maxFin * 10 ^ 6 := by rw [hmax]; ring

theorem reread_le (n : Nat) (h : n ≤ maxFin) : reread n ≤ maxFin :=
  roundUnits_le_maxFin _ _ (rhe_six_le n h)

/-- `ParseFloat` accepts the `%f` text of every finite value in range, and gives the
value of that text rounded to the nearest `float64`, with the same sign. -/
theorem ParseFloat_sprintfF_fin (s : Bool) (n : Nat) (h : n ≤ maxFin) :
    ParseFloat (sprintfF (F64.fin s n)) = .ok (F64.fin s (reread n)) := by
  have hr := reread_le n h
  unfold reread at hr ⊢
  generalize ht : rhe (n * 10 ^ 6) unitsPerOne = t at hr
  have hds := decDigits_isDec (t / 10 ^ 6)
  have hfs := sixDigits_isDec (t % 10 ^ 6)
  have hne := decDigits_ne_nil (t / 10 ^ 6)
  have hval : digitsVal (decDigits (t / 10 ^ 6)) * 10 ^ (sixDigits (t % 10 ^ 6)).length
      + digitsVal (sixDigits (t % 10 ^ 6)) = t := by
    rw [decDigits_val, sixDigits_val _ (Nat.mod_lt _ (by norm_num)), sixDigits_length]
    exact Nat.div_add_mod' t (10 ^ 6)
  have hrf := readFloat_fixed s _ _ hds hfs hne
  rw [hval, sixDigits_length] at hrf
  have hsp : special ((if s then ['-'] else []) ++ decDigits (t / 10 ^ 6)
      ++ '.' :: sixDigits (t % 10 ^ 6)) = none := by
    obtain ⟨d, ds', hd⟩ := List.exists_cons_of_ne_nil hne
    have hdd : isDec d = true := hds d (by rw [hd]; exact List.mem_cons_self _ _)
    rw [hd]
    cases s with
    | true => exact special_minus_digit d _ hdd
    | false => exact special_digit d _ hdd
  have hv : ReadFloat.value ⟨s, false, t, -((6 : Nat) : Int), false, []⟩
      = F64.fin s (roundUnits (t * unitsPerOne) (10 ^ 6)) := by
    have h6 : ¬ ((0 : Int) ≤ -((6 : Nat) : Int)) := by decide
    have h7 : (-(-((6 : Nat) : Int))).toNat = 6 := by decide
    simp only [ReadFloat.value, Bool.false_eq_true, if_false, h6, h7, F64.round]
    rw [if_neg (Nat.not_lt.mpr hr)]
  simp only [sprintfF, ht, ParseFloat, String.toList, hsp, hrf, hv]
  simp

/-- `ParseFloat` accepts every text that `%f` prints for a value in range. -/
theorem ParseFloat_sprintfF (x : F64) (hx : x.Bounded) :
    ∃ y, ParseFloat (sprintfF x) = .ok y := by
  match x, hx with
  | F64.nan, _ => exact ⟨F64.nan, by decide⟩
  | F64.inf false, _ => exact ⟨F64.inf false, by decide⟩
  | F64.inf true, _ => exact ⟨F64.inf true, by decide⟩
  | F64.fin s n, hx => exact ⟨_, ParseFloat_sprintfF_fin s n hx⟩

/-! ## The stored balance stays parseable -/

/-- What `updateUserBalance` does to the store: nothing, or one balance text written. -/
theorem updateUserBalance_store (c : RedisCli) (id amount : String) (asc : Bool) :
    (updateUserBalance c id amount asc).2 = c ∨
    ∃ x : F64, x.Bounded ∧ (updateUserBalance c id amount asc).2
      = ⟨fun k => if k = "user-" ++ id then some (sprintfF x) else c.data k⟩ := by
  unfold updateUserBalance
  cases ParseFloat amount with
  | error e => exact Or.inl rfl
  | ok a =>
    cases hb : c.data ("user-" ++ id) with
    | none => simp [RedisCli.GetValueByKey, hb]
    | some bs =>
      simp only [RedisCli.GetValueByKey, hb]
      cases ParseFloat bs with
      | error e => exact Or.inl rfl
      | ok b =>
        right
        refine ⟨if asc then b.add a else b.sub a, ?_, rfl⟩
        split
        · exact F64.add_bounded _ _
        · exact F64.sub_bounded _ _

/-- C10. A parseable balance stays parseable: if the value under `user-{id'}` is accepted
by `ParseFloat` before a call of `updateUserBalance`, it is accepted after the call, for
every id (the same or another), every amount string and either direction, whether the
call returns an error or not. -/
theorem updateUserBalance_parseable (c : RedisCli) (id id' amount : String) (asc : Bool)
    (h : c.parseable ("user-" ++ id')) :
    (updateUserBalance c id amount asc).2.parseable ("user-" ++ id') := by
  rcases updateUserBalance_store c id amount asc with h1 | ⟨x, hx, h1⟩
  · rw [h1]; exact h
  · rw [h1]
    unfold RedisCli.parseable
    simp only
    by_cases hk : "user-" ++ id' = "user-" ++ id
    · obtain ⟨y, hy⟩ := ParseFloat_sprintfF x hx
      exact ⟨sprintfF x, y, by simp [hk], hy⟩
    · obtain ⟨v, y, hv, hy⟩ := h
      exact ⟨v, y, by simp [hk, hv], hy⟩

/-- C10, at the top-up of user 1 (balance `10`) by `2.5`. -/
theorem updateUserBalance_parseable_witness :
    tenStore.parseable ("user-" ++ "1") ∧
    (updateUserBalance tenStore "1" "2.5" true).2.parseable ("user-" ++ "1") :=
  ⟨⟨"10", F64.fin false (10 * unitsPerOne), by decide, by decide!⟩,
   updateUserBalance_parseable tenStore "1" "1" "2.5" true
     ⟨"10", F64.fin false (10 * unitsPerOne), by decide, by decide!⟩⟩

/-! ## Whole-number balances are exact -/

theorem unitsPerOne_pos : 0 < unitsPerOne := Nat.two_pow_pos 1074

theorem updateUserBalance_ok (c : RedisCli) (id bs amount : String) (asc : Bool) (B A : F64)
    (hget : c.data ("user-" ++ id) = some bs) (hB : ParseFloat bs = .ok B)
    (hA : ParseFloat amount = .ok A) :
    updateUserBalance c id amount asc
      = (none, ⟨fun k => if k = "user-" ++ id then
          some (sprintfF (if asc then B.add A else B.sub A)) else c.data k⟩) := by
  simp [updateUserBalance, RedisCli.GetValueByKey, RedisCli.SetValueByKey, hget, hB, hA]

/-- The response of `handleBalanceGet` to a GET for a stored finite balance. -/
theorem handleBalanceGet_ok (s : APIServer) (r : Request) (idInt : Int) (v : String) (x : F64)
    (hm : r.Method = "GET") (hid : Atoi (r.vars "id") = .ok idInt)
    (hget : s.redisCli.data ("user-" ++ r.vars "id") = some v) (hx : ParseFloat v = .ok x)
    (hfin : x.isFinite = true) :
    handleBalanceGet s ResponseWriter.fresh r
      = ⟨.returned none,
          ⟨true, 200, [], [BodyPart.json [("ID", .int idInt), ("Balance", .number x)]], false⟩,
          s.redisCli, []⟩ := by
  simp [handleBalanceGet, hm, hid, RedisCli.GetValueByKey, hget, hx, WriteJSON, jsonEncode, hfin,
    ResponseWriter.Write, ResponseWriter.WriteHeader, ResponseWriter.fresh, bodyAllowedForStatus,
    BodyPart.isEmpty]

theorem F64.ofInt_isFinite (z : Int) : (F64.ofInt z).isFinite = true := rfl

theorem shiftFor_spec (fuel x : Nat) (h : x ≤ fuel) :
    (shiftFor fuel x = 0 ∧ x < 2 ^ 53) ∨
    (0 < shiftFor fuel x ∧ 2 ^ 52 * 2 ^ shiftFor fuel x ≤ x ∧ x < 2 ^ 53 * 2 ^ shiftFor fuel x) := by
  induction fuel generalizing x with
  | zero =>
    left
    have hx : x = 0 := by omega
    subst hx
    exact ⟨rfl, Nat.two_pow_pos 53⟩
  | succ fuel ih =>
    simp only [shiftFor]
    split
    · left; exact ⟨rfl, by assumption⟩
    · rename_i hx
      right
      have hx2 : x / 2 ≤ fuel := by
        have : (2 : Nat) ^ 53 = 9007199254740992 := by norm_num
        omega
      rcases ih (x / 2) hx2 with ⟨h0, hlt⟩ | ⟨hpos, hlo, hhi⟩
      · rw [h0]
        refine ⟨by omega, ?_, ?_⟩
        · have : (2 : Nat) ^ 52 * 2 ^ (0 + 1) = 2 ^ 53 := by norm_num
          omega
        · have : (2 : Nat) ^ 53 * 2 ^ (0 + 1) = 2 * 2 ^ 53 := by norm_num
          omega
      · have e : (2 : Nat) ^ (shiftFor fuel (x / 2) + 1) = 2 ^ shiftFor fuel (x / 2) * 2 :=
          pow_succ 2 _
        rw [e]
        generalize (2 : Nat) ^ shiftFor fuel (x / 2) = P at hlo hhi
        have h52 : (2 : Nat) ^ 52 = 4503599627370496 := by norm_num
        have h53 : (2 : Nat) ^ 53 = 9007199254740992 := by norm_num
        rw [h52] at hlo
        rw [h53] at hhi
        rw [h52, h53]
        refine ⟨by omega, by omega, by omega⟩

theorem rhe_cases (num den : Nat) :
    (rhe num den = num / den ∧ 2 * (num % den) ≤ den) ∨
    (rhe num den = num / den + 1 ∧ den ≤ 2 * (num % den)) := by
  unfold rhe
  simp only
  split_ifs <;> omega

/-- No natural number is nearer to `num / den` than `rhe num den`. -/
theorem rhe_nearest (num den z : Nat) (hden : 0 < den) :
    |(rhe num den : ℤ) * den - num| ≤ |(z : ℤ) * den - num| := by
  have hdm : (den : ℤ) * (num / den : Nat) + (num % den : Nat) = num := by
    exact_mod_cast Nat.div_add_mod num den
  have hmod : ((num % den : Nat) : ℤ) < den := by exact_mod_cast Nat.mod_lt num hden
  have hmod0 : (0 : ℤ) ≤ ((num % den : Nat) : ℤ) := Int.natCast_nonneg _
  have hz : (z : ℤ) * den ≤ ((num / den : Nat) : ℤ) * den ∨
      (((num / den : Nat) : ℤ) + 1) * den ≤ (z : ℤ) * den := by
    rcases Nat.lt_or_ge (num / den) z with h | h
    · right
      have h1 : ((num / den : Nat) : ℤ) + 1 ≤ z := by exact_mod_cast h
      exact mul_le_mul_of_nonneg_right h1 (by positivity)
    · left
      have h1 : (z : ℤ) ≤ ((num / den : Nat) : ℤ) := by exact_mod_cast h
      exact mul_le_mul_of_nonneg_right h1 (by positivity)
  rcases rhe_cases num den with ⟨hr, hle⟩ | ⟨hr, hle⟩
  · rw [hr]
    have hle' : 2 * ((num % den : Nat) : ℤ) ≤ den := by exact_mod_cast hle
    rw [abs_le]
    rcases hz with hz | hz
    · have : (z : ℤ) * den - num ≤ 0 := by nlinarith
      rw [abs_of_nonpos this]
      constructor <;> nlinarith
    · have : 0 ≤ (z : ℤ) * den - num := by nlinarith
      rw [abs_of_nonneg this]
      constructor <;> nlinarith
  · rw [hr]
    have hle' : (den : ℤ) ≤ 2 * ((num % den : Nat) : ℤ) := by exact_mod_cast hle
    rw [Nat.cast_add, Nat.cast_one, abs_le]
    rcases hz with hz | hz
    · have : (z : ℤ) * den - num ≤ 0 := by nlinarith
      rw [abs_of_nonpos this]
      constructor <;> nlinarith
    · have : 0 ≤ (z : ℤ) * den - num := by nlinarith
      rw [abs_of_nonneg this]
      constructor <;> nlinarith

/-- The rounding error of `rhe` is at most one half. -/
theorem rhe_half (num den : Nat) (hden : 0 < den) :
    2 * |(rhe num den : ℤ) * den - num| ≤ den := by
  have hdm : (den : ℤ) * (num / den : Nat) + (num % den : Nat) = num := by
    exact_mod_cast Nat.div_add_mod num den
  have hmod : ((num % den : Nat) : ℤ) < den := by exact_mod_cast Nat.mod_lt num hden
  have hmod0 : (0 : ℤ) ≤ ((num % den : Nat) : ℤ) := Int.natCast_nonneg _
  rcases rhe_cases num den with ⟨hr, hle⟩ | ⟨hr, hle⟩
  · rw [hr]
    have hle' : 2 * ((num % den : Nat) : ℤ) ≤ den := by exact_mod_cast hle
    have : ((num / den : Nat) : ℤ) * den - num ≤ 0 := by nlinarith
    rw [abs_of_nonpos this]
    nlinarith
  · rw [hr]
    have hle' : (den : ℤ) ≤ 2 * ((num % den : Nat) : ℤ) := by exact_mod_cast hle
    rw [Nat.cast_add, Nat.cast_one]
    have : 0 ≤ (((num / den : Nat) : ℤ) + 1) * den - num := by nlinarith
    rw [abs_of_nonneg this]
    nlinarith

/-- No `float64` is nearer to `num / den` than `roundUnits num den`. -/
theorem roundUnits_nearest (num den n : Nat) (hden : 0 < den) (hn : Representable n) :
    |(roundUnits num den : ℤ) * den - num| ≤ |(n : ℤ) * den - num| := by
  obtain ⟨a, j, ha, rfl⟩ := hn
  unfold roundUnits
  simp only
  have hspec := shiftFor_spec (num / den) (num / den) le_rfl
  generalize shiftFor (num / den) (num / den) = k at hspec
  have hk2 : 0 < den * 2 ^ k := Nat.mul_pos hden (Nat.two_pow_pos k)
  -- the distance to a multiple of `2^k`
  have hmult : ∀ z : Nat, |((rhe num (den * 2 ^ k) * 2 ^ k : Nat) : ℤ) * den - num|
      ≤ |((z * 2 ^ k : Nat) : ℤ) * den - num| := by
    intro z
    have h := rhe_nearest num (den * 2 ^ k) z hk2
    push_cast at h ⊢
    have e1 : (rhe num (den * 2 ^ k) : ℤ) * 2 ^ k * den
        = (rhe num (den * 2 ^ k) : ℤ) * (den * 2 ^ k) := by ring
    have e2 : (z : ℤ) * 2 ^ k * den = (z : ℤ) * (den * 2 ^ k) := by ring
    rw [e1, e2]
    exact h
  by_cases hjk : k ≤ j
  · have h := hmult (a * 2 ^ (j - k))
    have e : a * 2 ^ (j - k) * 2 ^ k = a * 2 ^ j := by
      rw [Nat.mul_assoc, ← pow_add, Nat.sub_add_cancel hjk]
    rw [e] at h
    exact h
  · have hkpos : 0 < k := by omega
    rcases hspec with ⟨h0, -⟩ | ⟨-, hlo, -⟩
    · omega
    · -- `a * 2^j` lies below `2^52 * 2^k`, which lies below `num / den`
      have hsmall : a * 2 ^ j ≤ 2 ^ 52 * 2 ^ k := by
        have h1 : a * 2 ^ j ≤ 2 ^ 53 * 2 ^ j := Nat.mul_le_mul_right _ (le_of_lt ha)
        have h2 : (2 : Nat) ^ 53 * 2 ^ j = 2 ^ 52 * 2 ^ (j + 1) := by
          rw [pow_succ]; ring
        have h3 : (2 : Nat) ^ (j + 1) ≤ 2 ^ k := Nat.pow_le_pow_right (by norm_num) (by omega)
        calc a * 2 ^ j ≤ 2 ^ 52 * 2 ^ (j + 1) := by rw [← h2]; exact h1
          _ ≤ 2 ^ 52 * 2 ^ k := Nat.mul_le_mul_left _ h3
      have hbelow : 2 ^ 52 * 2 ^ k * den ≤ num := by
        calc 2 ^ 52 * 2 ^ k * den ≤ num / den * den := Nat.mul_le_mul_right _ hlo
          _ ≤ num := Nat.div_mul_le_self num den
      have h := hmult (2 ^ 52)
      have hsmall' : ((a * 2 ^ j : Nat) : ℤ) * den ≤ ((2 ^ 52 * 2 ^ k : Nat) : ℤ) * den :=
        mul_le_mul_of_nonneg_right (by exact_mod_cast hsmall) (by positivity)
      have hbelow' : ((2 ^ 52 * 2 ^ k : Nat) : ℤ) * den ≤ num := by exact_mod_cast hbelow
      have h5 : ((2 ^ 52 * 2 ^ k : Nat) : ℤ) * den - num ≤ 0 := by linarith
      have h6 : ((a * 2 ^ j : Nat) : ℤ) * den - num ≤ 0 := by linarith
      rw [abs_of_nonpos h5] at h
      rw [abs_of_nonpos h6]
      linarith

/-- The result of a rounding has at most 53 significant bits. -/
theorem roundUnits_representable (num den : Nat) (hden : 0 < den) :
    Representable (roundUnits num den) := by
  unfold roundUnits
  simp only
  have hspec := shiftFor_spec (num / den) (num / den) le_rfl
  generalize shiftFor (num / den) (num / den) = k at hspec
  have hlt : num / den < 2 ^ 53 * 2 ^ k := by
    rcases hspec with ⟨h0, h⟩ | ⟨-, -, h⟩
    · rw [h0]; simpa using h
    · exact h
  have hle : rhe num (den * 2 ^ k) ≤ 2 ^ 53 := by
    apply rhe_le
    have h1 : num < (num / den + 1) * den := by
      have := Nat.div_add_mod num den
      have := Nat.mod_lt num hden
      nlinarith
    have h2 : (num / den + 1) * den ≤ 2 ^ 53 * 2 ^ k * den := Nat.mul_le_mul_right _ hlt
    calc num ≤ 2 ^ 53 * 2 ^ k * den := le_of_lt (lt_of_lt_of_le h1 h2)
      _ = 2 ^ 53 * (den * 2 ^ k) := by ring
  rcases Nat.lt_or_ge (rhe num (den * 2 ^ k)) (2 ^ 53) with h | h
  · exact ⟨_, k, h, rfl⟩
  · have he : rhe num (den * 2 ^ k) = 2 ^ 53 := le_antisymm hle h
    refine ⟨2 ^ 52, k + 1, by norm_num, ?_⟩
    rw [he, pow_succ]
    ring

/-- Reading the `%f` text of a `float64` back moves it by at most `10^-6`. -/
theorem reread_near (n : Nat) (hn : Representable n) :
    |(reread n : ℤ) - n| * 10 ^ 6 ≤ unitsPerOne := by
  unfold reread
  have hU := unitsPerOne_pos
  have h1 := roundUnits_nearest (rhe (n * 10 ^ 6) unitsPerOne * unitsPerOne) (10 ^ 6) n
    (by norm_num) hn
  have h2 := rhe_half (n * 10 ^ 6) unitsPerOne hU
  generalize roundUnits (rhe (n * 10 ^ 6) unitsPerOne * unitsPerOne) (10 ^ 6) = r at h1
  generalize rhe (n * 10 ^ 6) unitsPerOne = t at h1 h2
  push_cast at h1 h2
  have h3 : |(n : ℤ) * 1000000 - t * unitsPerOne| = |(t : ℤ) * unitsPerOne - n * 1000000| :=
    abs_sub_comm _ _
  rw [h3] at h1
  have h4 : |(r : ℤ) - n| * 10 ^ 6 = |(r : ℤ) * 1000000 - n * 1000000| := by
    rw [← sub_mul, abs_mul]
    norm_num
  rw [h4]
  have h5 : (r : ℤ) * 1000000 - n * 1000000
      = ((r : ℤ) * 1000000 - t * unitsPerOne) + ((t : ℤ) * unitsPerOne - n * 1000000) := by
    ring
  rw [h5]
  calc |((r : ℤ) * 1000000 - t * unitsPerOne) + ((t : ℤ) * unitsPerOne - n * 1000000)|
      ≤ |(r : ℤ) * 1000000 - t * unitsPerOne| + |(t : ℤ) * unitsPerOne - n * 1000000| :=
        abs_add _ _
    _ ≤ (unitsPerOne : ℤ) := by linarith

/-! ## A top-up, then a read -/

theorem representable_zero : Representable 0 := ⟨0, 0, by norm_num, by norm_num⟩

/-- A finite sum is in range and has at most 53 significant bits. -/
theorem F64.add_fin (x y : F64) (s : Bool) (n : Nat) (h : F64.add x y = F64.fin s n) :
    n ≤ maxFin ∧ Representable n := by
  have hb := F64.add_bounded x y
  rw [h] at hb
  refine ⟨hb, ?_⟩
  have hround : ∀ (t : Bool) (m : Nat), F64.round t m 1 = F64.fin s n → Representable n := by
    intro t m hm
    unfold F64.round at hm
    simp only at hm
    split at hm
    · cases hm
    · injection hm with _ h2
      rw [← h2]
      exact roundUnits_representable m 1 (by norm_num)
  cases x <;> cases y <;> simp only [F64.add] at h <;> try cases h
  · split at h <;> cases h
  · split_ifs at h
    · exact hround _ _ h
    · injection h with _ h2
      rw [← h2]
      exact representable_zero
    · exact hround _ _ h
    · exact hround _ _ h

/-- C3, amended. For every id that is a decimal integer, every stored balance text that
parses to `B` and every amount that parses to `A`, when the float64 sum `B + A` is finite:
the top-up returns `nil`, and a GET afterwards answers 200 with the `User` of that id whose
balance has the sign of the sum and differs from it by at most `10^-6` (the sum printed
with six decimals and read back). -/
theorem topUp_then_get (s : APIServer) (r : Request) (bs amount : String) (idInt : Int)
    (B A : F64) (neg : Bool) (n : Nat)
    (hm : r.Method = "GET") (hid : Atoi (r.vars "id") = .ok idInt)
    (hget : s.redisCli.data ("user-" ++ r.vars "id") = some bs)
    (hB : ParseFloat bs = .ok B) (hA : ParseFloat amount = .ok A)
    (hsum : B.add A = F64.fin neg n) :
    (updateUserBalance s.redisCli (r.vars "id") amount true).1 = none ∧
    ∃ m : Nat,
      (handleBalanceGet ⟨s.addr, (updateUserBalance s.redisCli (r.vars "id") amount true).2,
          s.apiURL, s.apiKey⟩ ResponseWriter.fresh r).w
        = ⟨true, 200, [],
            [BodyPart.json [("ID", .int idInt), ("Balance", .number (F64.fin neg m))]], false⟩ ∧
      |(m : ℤ) - n| * 10 ^ 6 ≤ unitsPerOne := by
  obtain ⟨hmax, hrep⟩ := F64.add_fin B A neg n hsum
  have h1 := updateUserBalance_ok s.redisCli (r.vars "id") bs amount true _ _ hget hB hA
  simp only [if_true, hsum] at h1
  refine ⟨by rw [h1], reread n, ?_, reread_near n hrep⟩
  rw [handleBalanceGet_ok _ r idInt (sprintfF (F64.fin neg n)) (F64.fin neg (reread n)) hm hid
    (by rw [h1]; simp) (ParseFloat_sprintfF_fin neg n hmax) rfl]

/-- C3 amended, at the balance `10` topped up by `2.5`: the sum is 12.5. -/
theorem topUp_then_get_witness :
    (updateUserBalance tenServer.redisCli (getOne.vars "id") "2.5" true).1 = none ∧
    ∃ m : Nat,
      (handleBalanceGet ⟨tenServer.addr,
          (updateUserBalance tenServer.redisCli (getOne.vars "id") "2.5" true).2,
          tenServer.apiURL, tenServer.apiKey⟩ ResponseWriter.fresh getOne).w
        = ⟨true, 200, [],
            [BodyPart.json [("ID", .int 1), ("Balance", .number (F64.fin false m))]], false⟩ ∧
      |(m : ℤ) - (25 * 2 ^ 1073 : Nat)| * 10 ^ 6 ≤ unitsPerOne :=
  topUp_then_get tenServer getOne "10" "2.5" 1 (F64.ofInt 10) (F64.fin false (5 * 2 ^ 1073))
    false (25 * 2 ^ 1073) rfl (by decide) (by decide) (by decide!) (by decide!) (by decide!)

/-- C3, as stated, fails. On the balance `1e308`, the top-up by the amount `1e308` (which
is `>= 0`) returns `nil` and stores `+Inf`, the float64 sum; a GET afterwards returns `nil`
with status 200 and an empty body: `encoding/json` refuses the infinite balance, so no
balance is read back. And on the balance `0`, the top-up by `0.0000004` returns `nil` and
stores `0.000000`: the balance read back is 0, the amount is lost in the six decimals. -/
theorem topUp_then_get_counterexample :
    (ParseFloat "1e308").map F64.nonneg = .ok true ∧
    (updateUserBalance (serverWith "1e308").redisCli "1" "1e308" true).1 = none ∧
    (updateUserBalance (serverWith "1e308").redisCli "1" "1e308" true).2.data "user-1"
      = some "+Inf" ∧
    (handleBalanceGet ⟨":8000", (updateUserBalance (serverWith "1e308").redisCli "1" "1e308"
        true).2, "u", "k"⟩ ResponseWriter.fresh getOne).outcome = Outcome.returned none ∧
    (handleBalanceGet ⟨":8000", (updateUserBalance (serverWith "1e308").redisCli "1" "1e308"
        true).2, "u", "k"⟩ ResponseWriter.fresh getOne).w = ⟨true, 200, [], [], false⟩ ∧
    (ParseFloat "0.0000004").map F64.nonneg = .ok true ∧
    ParseFloat "0.0000004" ≠ .ok (F64.fin false 0) ∧
    (updateUserBalance (serverWith "0").redisCli "1" "0.0000004" true).1 = none ∧
    (handleBalanceGet ⟨":8000", (updateUserBalance (serverWith "0").redisCli "1" "0.0000004"
        true).2, "u", "k"⟩ ResponseWriter.fresh getOne).w
      = ⟨true, 200, [],
          [BodyPart.json [("ID", .int 1), ("Balance", .number (F64.fin false 0))]], false⟩ := by
  refine ⟨by decide!, by decide!, by decide!, by decide!, by decide!, by decide!, by decide!,
    by decide!, by decide!⟩

end ChatProxy
